import Mathlib

/-!
Verification of the turntable render pipeline (`src/render_script.py`).

The script is embedded shallowly: Blender's scene graph becomes explicit
Lean structures, float arithmetic becomes exact rational arithmetic, and the
stateful functions of the script become pure state-passing functions.

Conventions of the embedding:
* Blender 4x4 object matrices always have bottom row (0,0,0,1), so a world
  matrix is embedded as an affine map (3x3 linear part + translation).
* Python floats are embedded as rationals; `math.pi` is the exact rational
  value of the IEEE-754 double that Python uses.
* `obj.matrix_world` is the derived transform
  `parent.matrix_world @ matrix_parent_inverse @ matrix_basis`
  (Blender's documented evaluation); an unparented object's world matrix is
  its basis matrix.
* `bpy.data` collections become lists; a datablock reference becomes an
  index into the list.
-/

namespace Render

/-- A 3-component vector of rationals (mathutils.Vector). -/
structure Vec3 where
  x : ℚ
  y : ℚ
  z : ℚ
deriving DecidableEq

def Vec3.add (a b : Vec3) : Vec3 := ⟨a.x + b.x, a.y + b.y, a.z + b.z⟩

def Vec3.sub (a b : Vec3) : Vec3 := ⟨a.x - b.x, a.y - b.y, a.z - b.z⟩

def Vec3.neg (a : Vec3) : Vec3 := ⟨-a.x, -a.y, -a.z⟩

def Vec3.scale (q : ℚ) (a : Vec3) : Vec3 := ⟨q * a.x, q * a.y, q * a.z⟩

/-- Componentwise minimum, as in `Vector((min(...), min(...), min(...)))`. -/
def Vec3.vmin (a b : Vec3) : Vec3 := ⟨min a.x b.x, min a.y b.y, min a.z b.z⟩

/-- Componentwise maximum. -/
def Vec3.vmax (a b : Vec3) : Vec3 := ⟨max a.x b.x, max a.y b.y, max a.z b.z⟩

/-- Componentwise order on vectors. -/
def Vec3.le (a b : Vec3) : Prop := a.x ≤ b.x ∧ a.y ≤ b.y ∧ a.z ≤ b.z

instance (a b : Vec3) : Decidable (Vec3.le a b) := by
  unfold Vec3.le; infer_instance

/-- Python's builtin `max` applied to a mathutils.Vector iterates the three
components, hence returns the maximal component. -/
def maxComp (v : Vec3) : ℚ := max v.x (max v.y v.z)

def Vec3.zero : Vec3 := ⟨0, 0, 0⟩

/-- A 3x3 rational matrix (the linear part of a Blender object matrix). -/
structure Mat3 where
  m00 : ℚ
  m01 : ℚ
  m02 : ℚ
  m10 : ℚ
  m11 : ℚ
  m12 : ℚ
  m20 : ℚ
  m21 : ℚ
  m22 : ℚ
deriving DecidableEq

def Mat3.one : Mat3 := ⟨1, 0, 0, 0, 1, 0, 0, 0, 1⟩

def Mat3.mulVec (M : Mat3) (v : Vec3) : Vec3 :=
  ⟨M.m00 * v.x + M.m01 * v.y + M.m02 * v.z,
   M.m10 * v.x + M.m11 * v.y + M.m12 * v.z,
   M.m20 * v.x + M.m21 * v.y + M.m22 * v.z⟩

def Mat3.mul (A B : Mat3) : Mat3 :=
  ⟨A.m00 * B.m00 + A.m01 * B.m10 + A.m02 * B.m20,
   A.m00 * B.m01 + A.m01 * B.m11 + A.m02 * B.m21,
   A.m00 * B.m02 + A.m01 * B.m12 + A.m02 * B.m22,
   A.m10 * B.m00 + A.m11 * B.m10 + A.m12 * B.m20,
   A.m10 * B.m01 + A.m11 * B.m11 + A.m12 * B.m21,
   A.m10 * B.m02 + A.m11 * B.m12 + A.m12 * B.m22,
   A.m20 * B.m00 + A.m21 * B.m10 + A.m22 * B.m20,
   A.m20 * B.m01 + A.m21 * B.m11 + A.m22 * B.m21,
   A.m20 * B.m02 + A.m21 * B.m12 + A.m22 * B.m22⟩

def Mat3.det (M : Mat3) : ℚ :=
  M.m00 * (M.m11 * M.m22 - M.m12 * M.m21)
  - M.m01 * (M.m10 * M.m22 - M.m12 * M.m20)
  + M.m02 * (M.m10 * M.m21 - M.m11 * M.m20)

/-- Classical adjugate (transpose of the cofactor matrix). -/
def Mat3.adj (M : Mat3) : Mat3 :=
  ⟨M.m11 * M.m22 - M.m12 * M.m21,
   -(M.m01 * M.m22 - M.m02 * M.m21),
   M.m01 * M.m12 - M.m02 * M.m11,
   -(M.m10 * M.m22 - M.m12 * M.m20),
   M.m00 * M.m22 - M.m02 * M.m20,
   -(M.m00 * M.m12 - M.m02 * M.m10),
   M.m10 * M.m21 - M.m11 * M.m20,
   -(M.m00 * M.m21 - M.m01 * M.m20),
   M.m00 * M.m11 - M.m01 * M.m10⟩

def Mat3.smul (q : ℚ) (M : Mat3) : Mat3 :=
  ⟨q * M.m00, q * M.m01, q * M.m02, q * M.m10, q * M.m11, q * M.m12,
   q * M.m20, q * M.m21, q * M.m22⟩

/-- Matrix inverse via adjugate over ℚ (as computed by `Matrix.inverted()`). -/
def Mat3.inv (M : Mat3) : Mat3 := Mat3.smul (Mat3.det M)⁻¹ (Mat3.adj M)

/-- An affine transform: the embedding of a Blender 4x4 object matrix,
these always having bottom row (0,0,0,1). -/
structure Affine where
  lin : Mat3
  tr : Vec3
deriving DecidableEq

def Affine.apply (A : Affine) (v : Vec3) : Vec3 :=
  Vec3.add (A.lin.mulVec v) A.tr

def Affine.comp (A B : Affine) : Affine :=
  ⟨A.lin.mul B.lin, Vec3.add (A.lin.mulVec B.tr) A.tr⟩

def Affine.idA : Affine := ⟨Mat3.one, Vec3.zero⟩

/-- Pure translation matrix: the world matrix of an empty created at a
location with default (identity) rotation and scale. -/
def Affine.translation (c : Vec3) : Affine := ⟨Mat3.one, c⟩

/-- `Matrix.inverted()` restricted to matrices of bottom row (0,0,0,1):
the inverse of `x ↦ L x + t` is `x ↦ L⁻¹ x - L⁻¹ t`. -/
def Affine.inverted (A : Affine) : Affine :=
  ⟨A.lin.inv, Vec3.neg (A.lin.inv.mulVec A.tr)⟩

/-- The exact rational value of the IEEE-754 double `math.pi`. -/
def mathPi : ℚ := 884279719003555 / 281474976710656

/-- Python's `int()` on a float/rational: truncation toward zero. -/
def pyInt (q : ℚ) : Int := if 0 ≤ q then ⌊q⌋ else ⌈q⌉

/-- Substring test on char lists: Python's `sub in s`. -/
def charsContain (s pat : List Char) : Bool :=
  match s with
  | [] => pat.isEmpty
  | _ :: cs => pat.isPrefixOf s || charsContain cs pat

/-- Python's substring operator `pat in s` on strings. -/
def strContains (s pat : String) : Bool := charsContain s.toList pat.toList

/-- Keyframe interpolation modes (only the ones this program touches). -/
inductive Interp where
  | BEZIER
  | LINEAR
deriving DecidableEq

/-- One keyframe sample `(frame, value, interpolation)`. -/
structure Key where
  frame : ℚ
  value : ℚ
  interp : Interp
deriving DecidableEq

/-- One animation curve on a single property channel. -/
structure FCurve where
  data_path : String
  array_index : Nat
  keyframe_points : List Key
deriving DecidableEq

/-- An action (bpy action datablock).  `frame_range_end` embeds
`action.frame_range[1]`, a value derived by Blender from the authored
keyframes; the program only reads it (in `get_animation_length`) before any
keyframe writes, so it is carried as plain scene-provided data. -/
structure Action where
  fcurves : List FCurve
  frame_range_end : ℚ
deriving DecidableEq

/-- A shading node.  `inputs` lists the names of the node's input sockets;
`image` is the image reference of an image-texture node (an index into the
loaded images). -/
structure SNode where
  ntype : String
  inputs : List String
  image : Option Nat
deriving DecidableEq

/-- A shading link `from_node.outputs[from_socket] → to_node.inputs[to_socket]`,
nodes referenced by their index in the material's node list. -/
structure SLink where
  fromNode : Nat
  fromSocket : String
  toNode : Nat
  toSocket : String
deriving DecidableEq

/-- A material datablock with its shading graph. -/
structure Material where
  name : String
  use_nodes : Bool
  nodes : List SNode
  links : List SLink
deriving DecidableEq

/-- A scene object.  `action` embeds `obj.animation_data.action` (`none`
when either the animation data or the action is absent).  `parentWorld` is
`none` for an unparented object and otherwise holds the parent's world
matrix, which is all of the parent that Blender's transform evaluation
`parent.matrix_world @ matrix_parent_inverse @ matrix_basis` reads. -/
structure Obj where
  name : String
  otype : String
  materialSlots : List (Option Nat)
  bound_box : List Vec3
  parentWorld : Option Affine
  matrix_parent_inverse : Affine
  matrix_basis : Affine
  rotation_mode : String
  rotation_euler : Vec3
  action : Option Action
deriving DecidableEq

/-- The scene: object list (bpy.data.objects), material store
(bpy.data.materials, referenced by index from object slots) and the
declared frame range end. -/
structure Scene where
  objs : List Obj
  materials : List Material
  frame_end : Int
deriving DecidableEq

/-- Blender's documented object-transform evaluation. -/
def worldOf (o : Obj) : Affine :=
  match o.parentWorld with
  | none => o.matrix_basis
  | some p => p.comp (o.matrix_parent_inverse.comp o.matrix_basis)

/-- Update a list at an index with a function (no-op when out of range). -/
def updAt (l : List α) (i : Nat) (f : α → α) : List α :=
  match l[i]? with
  | some a => l.set i (f a)
  | none => l

/-- Index of the first object with the given name
(`bpy.data.objects.get(name)`, returned as an index). -/
def findNamedIdx : List Obj → String → Option Nat
  | [], _ => none
  | o :: os, nm => if o.name == nm then some 0 else (findNamedIdx os nm).map (· + 1)

/-- Blender name uniquification: a freshly named datablock keeps the
requested name when free, otherwise receives the first free `.001`-style
numeric suffix.  (The final fallback is dead code: there are always more
candidate suffixes than taken names.) -/
def numSuffix (k : Nat) : String :=
  if k < 10 then "00" ++ toString k
  else if k < 100 then "0" ++ toString k
  else toString k

def uniquifyName (taken : List String) (base : String) : String :=
  if taken.contains base then
    match (List.range (taken.length + 1)).find?
        (fun k => !(taken.contains (base ++ "." ++ numSuffix (k + 1)))) with
    | some k => base ++ "." ++ numSuffix (k + 1)
    | none => base ++ ".overflow"
  else base

/-- `get_all_mesh_objects` (line 106). -/
def get_all_mesh_objects (s : Scene) : List Obj :=
  s.objs.filter (fun o => o.otype == "MESH")

/-- One material slot's name test against the background keyword, used in
the classification of `analyze_and_setup_scene` (lines 159-161):
`any("背景" in m.name for m in obj.data.materials if m)`. -/
def slotIsBgMaterial (store : List Material) (sl : Option Nat) : Bool :=
  match sl with
  | none => false
  | some mi =>
    match store[mi]? with
    | some m => strContains m.name "背景"
    | none => false

/-- Background test of `analyze_and_setup_scene` (lines 156-165). -/
def is_bg (store : List Material) (o : Obj) : Bool :=
  o.materialSlots.any (slotIsBgMaterial store)
  || strContains o.name "VEN" || strContains o.name "CARNAGE"

/-- True when at least one mesh object classifies as subject (card);
when false, the fallback at line 172-173 makes every mesh a card. -/
def has_card (s : Scene) : Bool :=
  (get_all_mesh_objects s).any (fun o => !(is_bg s.materials o))

/-- Membership in `card_objects` (after the line 172-173 fallback). -/
def is_card (s : Scene) (o : Obj) : Bool :=
  (o.otype == "MESH") && (if has_card s then !(is_bg s.materials o) else true)

/-- Membership in `background_objects`. -/
def is_background (s : Scene) (o : Obj) : Bool :=
  (o.otype == "MESH") && is_bg s.materials o

/-- One step of the min/max accumulation (lines 191-193).  `none` plays the
role of the `(inf, -inf)` initial accumulator together with the
`has_card_bounds` flag. -/
def updMinMax (acc : Option (Vec3 × Vec3)) (p : Vec3) : Option (Vec3 × Vec3) :=
  match acc with
  | none => some (p, p)
  | some (mn, mx) => some (Vec3.vmin mn p, Vec3.vmax mx p)

/-- World-space bounding fold of lines 183-193 (also reused for the scene
bounds of lines 224-232): every `bound_box` corner of every object is
transformed by the object's world matrix and folded into min/max. -/
def boundsFoldObj (acc : Option (Vec3 × Vec3)) (o : Obj) : Option (Vec3 × Vec3) :=
  o.bound_box.foldl (fun a c => updMinMax a ((worldOf o).apply c)) acc

def computeBounds (objs : List Obj) : Option (Vec3 × Vec3) :=
  objs.foldl boundsFoldObj none

/-- Lines 195-200: center/size from the folded bounds, with the safe
default when no corner was seen. -/
def centerSizeOf : Option (Vec3 × Vec3) → Vec3 × ℚ
  | none => (Vec3.zero, 1)
  | some (mn, mx) =>
    (Vec3.scale (1 / 2) (Vec3.add mn mx), maxComp (Vec3.sub mx mn))

/-- A fresh empty object (`bpy.ops.object.empty_add(location=c)`). -/
def newEmptyAt (nm : String) (c : Vec3) : Obj :=
  { name := nm, otype := "EMPTY", materialSlots := [], bound_box := [],
    parentWorld := none, matrix_parent_inverse := Affine.idA,
    matrix_basis := Affine.translation c,
    rotation_mode := "XYZ", rotation_euler := Vec3.zero, action := none }

/-- `obj.animation_data_clear()` (line 180). -/
def clearObjAnim (o : Obj) : Obj := { o with action := none }

/-- Lines 177-180: clear existing animation on the card objects unless it
is to be kept. -/
def clearCardAnim (keep_animation : Bool) (pred : Obj → Bool)
    (objs : List Obj) : List Obj :=
  objs.map (fun o => if !keep_animation && pred o then clearObjAnim o else o)

/-- The card bounds center of lines 183-199 (the pivot location). -/
def cardCenterOf (s : Scene) : Vec3 :=
  (centerSizeOf (computeBounds (s.objs.filter (is_card s)))).1

/-- Lines 209-210: set one object's parent to the pivot (whose world
matrix is `pw`) and its parent-inverse to the pivot's inverted world
matrix. -/
def reparentObj (pw : Affine) (o : Obj) : Obj :=
  { o with parentWorld := some pw, matrix_parent_inverse := Affine.inverted pw }

/-- Lines 208-210: parent every card object to the pivot. -/
def reparentCards (pred : Obj → Bool) (pw : Affine) (objs : List Obj) : List Obj :=
  objs.map (fun o => if pred o then reparentObj pw o else o)

/-- Lines 239-245: move the FocusPoint empty to the scene center, creating
it when absent (this node, unlike the pivot, is looked up for reuse). -/
def placeFocus (scene_center : Vec3) (objs : List Obj) : List Obj :=
  if objs.any (fun o => o.name == "FocusPoint") then
    objs.map (fun o =>
      if o.name == "FocusPoint" then
        { o with matrix_basis := ⟨o.matrix_basis.lin, scene_center⟩ }
      else o)
  else
    objs ++ [newEmptyAt (uniquifyName (objs.map (fun o => o.name)) "FocusPoint") scene_center]

/-- `analyze_and_setup_scene` (lines 141-247).

Notes kept from the source:
* classification (lines 153-173) happens before the animation clearing of
  lines 177-180, so the card predicate is evaluated on the input scene;
* clearing animation does not change any transform or name, so the card
  bounds of lines 183-200 are computed from the input objects;
* `empty_add` + `card_parent.name = "CardParent"` (lines 203-205) net to
  appending one empty whose final name is the uniquified "CardParent" (the
  transient auto-name of the new empty is immediately overwritten);
* every mesh object has 8 `bound_box` corners in Blender; the model's
  `centerSizeOf` default on a cornerless scene-bounds fold is unreachable
  there. -/
def analyze_and_setup_scene (keep_animation : Bool) (s : Scene) : Scene × Vec3 × ℚ :=
  if (get_all_mesh_objects s).isEmpty then (s, Vec3.zero, 1) else
  let pred := is_card s
  let objs1 := clearCardAnim keep_animation pred s.objs
  let card_center := cardCenterOf s
  let names := s.objs.map (fun o => o.name)
  let card_parent := newEmptyAt (uniquifyName names "CardParent") card_center
  let objs2 := objs1 ++ [card_parent]
  let objs3 := reparentCards pred (worldOf card_parent) objs2
  let sceneCS := centerSizeOf (computeBounds
    (objs3.filter pred ++ objs3.filter (fun o => is_background s o)))
  let scene_center := sceneCS.1
  let scene_size := sceneCS.2
  let objs4 := placeFocus scene_center objs3
  ({ s with objs := objs4 }, scene_center, scene_size)

/-- Sorted keyframe insertion: `keyframe_insert` adds a sample at the given
frame (new samples get the default Bezier interpolation), replacing an
existing sample at the same frame. -/
def insertKey (f v : ℚ) : List Key → List Key
  | [] => [⟨f, v, Interp.BEZIER⟩]
  | k :: ks =>
    if f < k.frame then ⟨f, v, Interp.BEZIER⟩ :: k :: ks
    else if f = k.frame then ⟨f, v, Interp.BEZIER⟩ :: ks
    else k :: insertKey f v ks

/-- Find-or-create of the fcurve for `data_path="rotation_euler", index=2`
and insertion of a sample into it; a missing fcurve is appended at the end
of the action, as Blender does. -/
def insertIntoFCurves (frame v : ℚ) : List FCurve → List FCurve
  | [] => [⟨"rotation_euler", 2, insertKey frame v []⟩]
  | fc :: fcs =>
    if fc.data_path == "rotation_euler" && fc.array_index == 2 then
      { fc with keyframe_points := insertKey frame v fc.keyframe_points } :: fcs
    else fc :: insertIntoFCurves frame v fcs

/-- Proof helper: sorted insertion of an already-linearized key (used to
commute the final linear-interpolation pass with the insertions). -/
def insertKeyLin (f v : ℚ) : List Key → List Key
  | [] => [⟨f, v, Interp.LINEAR⟩]
  | k :: ks =>
    if f < k.frame then ⟨f, v, Interp.LINEAR⟩ :: k :: ks
    else if f = k.frame then ⟨f, v, Interp.LINEAR⟩ :: ks
    else k :: insertKeyLin f v ks

/-- Proof helper: apply a keyframe-list transformation to the first
`rotation_euler[2]` fcurve, appending a fresh curve when none exists. -/
def modifyRZ (h : List Key → List Key) : List FCurve → List FCurve
  | [] => [⟨"rotation_euler", 2, h []⟩]
  | fc :: fcs =>
    if fc.data_path == "rotation_euler" && fc.array_index == 2 then
      { fc with keyframe_points := h fc.keyframe_points } :: fcs
    else fc :: modifyRZ h fcs

/-- `keyframe_insert(data_path="rotation_euler", frame=f, index=2)`: creates
animation data and an action when absent, then inserts the current value of
the keyed property.  A freshly created action has no authored range. -/
def keyframe_insert_rotZ (f : ℚ) (o : Obj) : Obj :=
  let act := o.action.getD ⟨[], 0⟩
  let act2 := { act with fcurves := insertIntoFCurves f o.rotation_euler.z act.fcurves }
  { o with action := some act2 }

def linKey (k : Key) : Key := { k with interp := Interp.LINEAR }

def linFCurve (fc : FCurve) : FCurve :=
  { fc with keyframe_points := fc.keyframe_points.map linKey }

/-- Lines 370-372: set every keyframe of every fcurve of the action to
linear interpolation. -/
def linearizeAction (a : Action) : Action :=
  { a with fcurves := a.fcurves.map linFCurve }

/-- The per-object body of `setup_turntable_animation` (lines 359-372). -/
def turntableUpdate (frames : Int) (rotations : ℚ) (o : Obj) : Obj :=
  let o1 := { o with rotation_mode := "XYZ" }
  let o2 := { o1 with rotation_euler := { o1.rotation_euler with z := 0 } }
  let o3 := keyframe_insert_rotZ 1 o2
  let o4 := { o3 with rotation_euler := { o3.rotation_euler with z := 2 * mathPi * rotations } }
  let o5 := keyframe_insert_rotZ ((frames : ℚ) + 1) o4
  { o5 with action := o5.action.map linearizeAction }

/-- `setup_turntable_animation` (lines 348-372). -/
def setup_turntable_animation (frames : Int) (rotations : ℚ) (s : Scene) : Scene :=
  let pIdx := match findNamedIdx s.objs "CardParent" with
    | some i => some i
    | none => findNamedIdx s.objs "ModelParent"
  match pIdx with
  | none => s
  | some i =>
    match s.objs[i]? with
    | none => s
    | some o => { s with objs := s.objs.set i (turntableUpdate frames rotations o) }

/-- The rotation-z track of an object: keyframes of the first fcurve on
channel `rotation_euler[2]`, empty when no animation is present. -/
def trackOfFC : List FCurve → List Key
  | [] => []
  | fc :: fcs =>
    if fc.data_path == "rotation_euler" && fc.array_index == 2 then fc.keyframe_points
    else trackOfFC fcs

def trackOf (o : Obj) : List Key :=
  match o.action with
  | none => []
  | some a => trackOfFC a.fcurves

/-- `check_if_animation_exists` (lines 110-119). -/
def check_if_animation_exists (s : Scene) : Bool :=
  (get_all_mesh_objects s).any (fun o =>
    !(strContains o.name "VEN" || strContains o.name "CARNAGE") && o.action.isSome)

/-- One step of the fold at lines 129-131: take the action's range end
into the running maximum when the object has one. -/
def animMaxStep (m : ℚ) (o : Obj) : ℚ :=
  match o.action with
  | some a => max m a.frame_range_end
  | none => m

/-- The fold of lines 127-131: max of the scene's end frame and every
mesh object's action range end. -/
def maxFrameFold (s : Scene) : ℚ :=
  (get_all_mesh_objects s).foldl animMaxStep ((s.frame_end : ℚ))

/-- `get_animation_length` (lines 121-139). -/
def get_animation_length (s : Scene) : Int :=
  let scene_end := s.frame_end
  let max_frame := maxFrameFold s
  if max_frame > (scene_end : ℚ) ∧ scene_end < 2 then pyInt max_frame
  else scene_end

/-- Lines 525-554 of `main`: the animation-preservation decision and the
effective frame/rotation values.  Returns (keep_animation, final_frames,
final_rotations); `args.frames = 0` and `args.rotations < 0` are the
"unspecified" defaults of the argument parser. -/
def animationPlan (argsFrames : Int) (argsRotations : ℚ) (s : Scene) : Bool × Int × ℚ :=
  let should_keep := argsRotations < 0
  let has_existing := check_if_animation_exists s
  if should_keep ∧ has_existing = true then
    let anim_len := get_animation_length s
    (true, (if argsFrames > 0 then argsFrames else anim_len), 1)
  else
    (false,
     (if argsFrames > 0 then argsFrames else 120),
     (if argsRotations ≥ 0 then argsRotations else 1))

/-- Keyword table of `replace_texture` (lines 270-284). -/
def targetKeywordsFor (target_part : String) : List String :=
  if target_part == "front" then ["正面"]
  else if target_part == "back" then ["背面", "反面"]
  else if target_part == "background" then ["背景"]
  else ["正面", "反面", "背面"]

/-- Index of the first `BSDF_PRINCIPLED` node (line 318). -/
def findBsdfIdx : List SNode → Option Nat
  | [] => none
  | n :: ns =>
    if n.ntype == "BSDF_PRINCIPLED" then some 0 else (findBsdfIdx ns).map (· + 1)

/-- A freshly created `ShaderNodeTexImage` with the new image assigned
(lines 339-345 create the node, optionally link it, then set its image;
the image assignment is folded into the creation here). -/
def newTexNode (imgId : Nat) : SNode :=
  { ntype := "TEX_IMAGE", inputs := [], image := some imgId }

/-- The per-material body of `replace_texture` (lines 302-346). -/
def processMat (target_materials : List String) (imgId : Nat) (mat : Material) : Material :=
  if !mat.use_nodes then mat
  else if !(target_materials.any (fun tm => strContains mat.name tm)) then mat
  else
    match findBsdfIdx mat.nodes with
    | none => mat
    | some bi =>
      match mat.nodes[bi]? with
      | none => mat
      | some bsdf =>
        let base_color_socket : Option String :=
          if bsdf.inputs.contains "Base Color" then some "Base Color"
          else if bsdf.inputs.contains "BaseColor" then some "BaseColor"
          else none
        let tex_node : Option Nat :=
          match base_color_socket with
          | none => none
          | some sock =>
            match (mat.links.filter (fun l => l.toNode == bi && l.toSocket == sock)).head? with
            | none => none
            | some link =>
              match mat.nodes[link.fromNode]? with
              | some n => if n.ntype == "TEX_IMAGE" then some link.fromNode else none
              | none => none
        match tex_node with
        | some ti =>
          { mat with nodes := updAt mat.nodes ti (fun n => { n with image := some imgId }) }
        | none =>
          { mat with
            nodes := mat.nodes ++ [newTexNode imgId],
            links := match base_color_socket with
              | some sock => mat.links ++ [⟨mat.nodes.length, "Color", bi, sock⟩]
              | none => mat.links }

/-- One material slot of the loop at line 302: `if not mat ... continue`,
otherwise process the slot's material through the material store. -/
def replaceStep (kws : List String) (imgId : Nat)
    (st : List Material) (sl : Option Nat) : List Material :=
  match sl with
  | none => st
  | some mi =>
    match st[mi]? with
    | none => st
    | some m => st.set mi (processMat kws imgId m)

/-- The slot loop of `replace_texture` (line 302). -/
def replaceSlots (kws : List String) (imgId : Nat)
    (store : List Material) (slots : List (Option Nat)) : List Material :=
  slots.foldl (replaceStep kws imgId) store

/-- `replace_texture` (lines 249-346).  `image` is `none` when the path is
missing or the load fails (lines 254-265, early return), otherwise the id
of the freshly loaded image. -/
def replace_texture (image : Option Nat) (target_part : String) (s : Scene) : Scene :=
  match image with
  | none => s
  | some imgId =>
    let target_materials := targetKeywordsFor target_part
    let allow_background_objects := target_part == "background"
    let store := (get_all_mesh_objects s).foldl (fun st o =>
      if o.materialSlots.isEmpty then st
      else if (strContains o.name "VEN" || strContains o.name "CARNAGE")
              && !allow_background_objects then st
      else replaceSlots target_materials imgId st o.materialSlots) s.materials
    { s with materials := store }

/-- Pipeline stage labels for the execution order of `main` (lines 468-589). -/
inductive Stage where
  | classify
  | boundsStage
  | pivot
  | camera
  | light
  | texture
  | animDetect
  | turntable
deriving DecidableEq

/-- The order in which `main` runs the pipeline components, one invocation.
`rotationsNeg` is `args.rotations < 0` (line 527), `sceneHasAnim` the value
of `check_if_animation_exists`, `blendHasCamera` whether a pre-authored
project supplies a camera.  Texture events (lines 515-523) come first;
animation detection (lines 528, 542) precedes `analyze_and_setup_scene`
(line 559), which performs classify/bounds/pivot; lighting and camera
follow (lines 563-571); the turntable (line 581) runs only when animation
is not preserved. -/
def mainTrace (hasTexture hasTexFront hasTexBack hasTexBg isBlend blendHasCamera
    rotationsNeg sceneHasAnim : Bool) : List Stage :=
  (if hasTexture then [Stage.texture] else [])
  ++ (if hasTexFront then [Stage.texture] else [])
  ++ (if hasTexBack then [Stage.texture] else [])
  ++ (if hasTexBg then [Stage.texture] else [])
  ++ [Stage.animDetect]
  ++ [Stage.classify, Stage.boundsStage, Stage.pivot]
  ++ (if !isBlend then [Stage.light, Stage.camera]
      else if !blendHasCamera then [Stage.camera] else [])
  ++ (if !(rotationsNeg && sceneHasAnim) then [Stage.turntable] else [])

/-- Every occurrence of stage `a` comes strictly before every occurrence of
stage `b` in the trace. -/
def stageBefore (l : List Stage) (a b : Stage) : Prop :=
  ∀ i ∈ List.range l.length, ∀ j ∈ List.range l.length,
    l[i]? = some a → l[j]? = some b → i < j

instance (l : List Stage) (a b : Stage) : Decidable (stageBefore l a b) := by
  unfold stageBefore; infer_instance

/-! Concrete scenes used to instantiate the theorems. -/

/-- A plain unparented mesh object with a 2-corner box (the model does not
require the full 8 corners for concrete instances). -/
def meshObj (nm : String) : Obj :=
  { name := nm
    otype := "MESH"
    materialSlots := []
    bound_box := [⟨0, 0, 0⟩, ⟨1, 2, 3⟩]
    parentWorld := none
    matrix_parent_inverse := Affine.idA
    matrix_basis := Affine.idA
    rotation_mode := "XYZ"
    rotation_euler := Vec3.zero
    action := none }

/-- Scene with a pre-existing node named CardParent next to one card mesh. -/
def sceneC6 : Scene :=
  { objs := [newEmptyAt "CardParent" Vec3.zero, meshObj "Card"]
    materials := []
    frame_end := 120 }

/-- A pivot carrying a pre-authored keyframe at frame 50 on the z-rotation
channel. -/
def pivotWithPriorKey : Obj :=
  { newEmptyAt "CardParent" Vec3.zero with
      action := some ⟨[⟨"rotation_euler", 2, [⟨50, 1, Interp.BEZIER⟩]⟩], 50⟩ }

def sceneC2 : Scene :=
  { objs := [pivotWithPriorKey], materials := [], frame_end := 120 }

/-- A fresh pivot without animation data, for the amended C2 statement. -/
def sceneC2w : Scene :=
  { objs := [newEmptyAt "CardParent" Vec3.zero], materials := [], frame_end := 120 }

/-- A card mesh that already has a parent whose world matrix is a
translation by (1,0,0). -/
def objC4 : Obj :=
  { meshObj "Card" with parentWorld := some (Affine.translation ⟨1, 0, 0⟩) }

def sceneC4 : Scene := { objs := [objC4], materials := [], frame_end := 120 }

/-- A matched front material whose principled node has no base-color
socket variant at all. -/
def matNoBaseColor : Material :=
  { name := "正面_mat"
    use_nodes := true
    nodes := [⟨"BSDF_PRINCIPLED", ["Roughness"], none⟩]
    links := [] }

/-- A material whose name carries no reserved keyword. -/
def matUnrelated : Material :=
  { name := "wood_trim"
    use_nodes := true
    nodes := [⟨"BSDF_PRINCIPLED", ["Base Color"], none⟩]
    links := [] }

def sceneC3 : Scene :=
  { objs := [{ meshObj "Card" with materialSlots := [some 0] }]
    materials := [matUnrelated]
    frame_end := 120 }

/-- A subject mesh with an authored action spanning frames 1-200, in a
scene whose declared frame_end is the degenerate value 1 (Scenario C). -/
def sceneC5 : Scene :=
  { objs := [{ meshObj "Card" with action := some ⟨[], 200⟩ }]
    materials := []
    frame_end := 1 }

/-- Scene with no CardParent but a legacy ModelParent node. -/
def sceneC10 : Scene :=
  { objs := [meshObj "Card", newEmptyAt "ModelParent" Vec3.zero]
    materials := []
    frame_end := 120 }

def sceneC10b : Scene :=
  { objs := [meshObj "Card"], materials := [], frame_end := 120 }

/-- A scene with no mesh objects at all. -/
def sceneEmpty : Scene :=
  { objs := [newEmptyAt "E" Vec3.zero], materials := [], frame_end := 120 }

/-! ## Order lemmas for the componentwise bounds -/

theorem Vec3.le_refl (a : Vec3) : Vec3.le a a := ⟨le_rfl, le_rfl, le_rfl⟩

theorem Vec3.le_trans {a b c : Vec3} (h1 : Vec3.le a b) (h2 : Vec3.le b c) :
    Vec3.le a c :=
  ⟨h1.1.trans h2.1, h1.2.1.trans h2.2.1, h1.2.2.trans h2.2.2⟩

theorem Vec3.vmin_le_left (a b : Vec3) : Vec3.le (Vec3.vmin a b) a :=
  ⟨min_le_left _ _, min_le_left _ _, min_le_left _ _⟩

theorem Vec3.vmin_le_right (a b : Vec3) : Vec3.le (Vec3.vmin a b) b :=
  ⟨min_le_right _ _, min_le_right _ _, min_le_right _ _⟩

theorem Vec3.le_vmax_left (a b : Vec3) : Vec3.le a (Vec3.vmax a b) :=
  ⟨le_max_left _ _, le_max_left _ _, le_max_left _ _⟩

theorem Vec3.le_vmax_right (a b : Vec3) : Vec3.le b (Vec3.vmax a b) :=
  ⟨le_max_right _ _, le_max_right _ _, le_max_right _ _⟩

/-- The min/max fold from a concrete accumulator: the result bounds the old
accumulator and every folded point. -/
theorem foldl_updMinMax_bounds (pts : List Vec3) :
    ∀ mn mx : Vec3, ∃ mn2 mx2,
      pts.foldl updMinMax (some (mn, mx)) = some (mn2, mx2) ∧
      Vec3.le mn2 mn ∧ Vec3.le mx mx2 ∧
      ∀ p ∈ pts, Vec3.le mn2 p ∧ Vec3.le p mx2 := by
  induction pts with
  | nil =>
    intro mn mx
    exact ⟨mn, mx, rfl, Vec3.le_refl mn, Vec3.le_refl mx, by simp⟩
  | cons p ps ih =>
    intro mn mx
    obtain ⟨mn2, mx2, heq, hmn, hmx, hall⟩ := ih (Vec3.vmin mn p) (Vec3.vmax mx p)
    refine ⟨mn2, mx2, ?_, ?_, ?_, ?_⟩
    · simpa [updMinMax] using heq
    · exact Vec3.le_trans hmn (Vec3.vmin_le_left mn p)
    · exact Vec3.le_trans (Vec3.le_vmax_left mx p) hmx
    · intro q hq
      rcases List.mem_cons.mp hq with h | h
      · subst h
        exact ⟨Vec3.le_trans hmn (Vec3.vmin_le_right mn q),
               Vec3.le_trans (Vec3.le_vmax_right mx q) hmx⟩
      · exact hall q h

/-- The min/max fold from the empty (infinite) accumulator on a non-empty
point list. -/
theorem foldl_updMinMax_none (pts : List Vec3) (hne : pts ≠ []) :
    ∃ mn mx, pts.foldl updMinMax none = some (mn, mx) ∧
      ∀ p ∈ pts, Vec3.le mn p ∧ Vec3.le p mx := by
  cases pts with
  | nil => exact absurd rfl hne
  | cons p ps =>
    obtain ⟨mn2, mx2, heq, hmn, hmx, hall⟩ := foldl_updMinMax_bounds ps p p
    refine ⟨mn2, mx2, ?_, ?_⟩
    · simpa [updMinMax] using heq
    · intro q hq
      rcases List.mem_cons.mp hq with h | h
      · subst h; exact ⟨hmn, hmx⟩
      · exact hall q h

/-- The per-object step is the point fold over the object's transformed
corners. -/
theorem boundsFoldObj_eq_foldl (acc : Option (Vec3 × Vec3)) (o : Obj) :
    boundsFoldObj acc o
      = (o.bound_box.map (fun c => (worldOf o).apply c)).foldl updMinMax acc := by
  simp [boundsFoldObj, List.foldl_map]

/-- Min/max accumulation over a list of objects starting from a concrete
accumulator. -/
theorem foldl_boundsFoldObj_bounds (objs : List Obj) :
    ∀ mn mx : Vec3, ∃ mn2 mx2,
      objs.foldl boundsFoldObj (some (mn, mx)) = some (mn2, mx2) ∧
      Vec3.le mn2 mn ∧ Vec3.le mx mx2 ∧
      ∀ o ∈ objs, ∀ c ∈ o.bound_box,
        Vec3.le mn2 ((worldOf o).apply c) ∧ Vec3.le ((worldOf o).apply c) mx2 := by
  induction objs with
  | nil =>
    intro mn mx
    exact ⟨mn, mx, rfl, Vec3.le_refl mn, Vec3.le_refl mx, by simp⟩
  | cons o os ih =>
    intro mn mx
    obtain ⟨a, b, ha, hamn, hbmx, hab⟩ :=
      foldl_updMinMax_bounds (o.bound_box.map (fun c => (worldOf o).apply c)) mn mx
    obtain ⟨mn2, mx2, heq, hmn, hmx, hall⟩ := ih a b
    refine ⟨mn2, mx2, ?_, Vec3.le_trans hmn hamn, Vec3.le_trans hbmx hmx, ?_⟩
    · rw [List.foldl_cons, boundsFoldObj_eq_foldl, ha]; exact heq
    · intro o2 ho2 c hc
      rcases List.mem_cons.mp ho2 with h | h
      · subst h
        have hpt := hab _ (List.mem_map_of_mem _ hc)
        exact ⟨Vec3.le_trans hmn hpt.1, Vec3.le_trans hpt.2 hmx⟩
      · exact hall o2 h c hc

/-- The bounds computation of lines 183-193 succeeds on a non-empty object
set whose objects expose corners, and its result bounds every transformed
corner of every object. -/
theorem computeBounds_spec (objs : List Obj) (h1 : objs ≠ [])
    (h2 : ∀ o ∈ objs, o.bound_box ≠ []) :
    ∃ mn mx, computeBounds objs = some (mn, mx) ∧
      ∀ o ∈ objs, ∀ c ∈ o.bound_box,
        Vec3.le mn ((worldOf o).apply c) ∧ Vec3.le ((worldOf o).apply c) mx := by
  cases objs with
  | nil => exact absurd rfl h1
  | cons o os =>
    have hbx : o.bound_box ≠ [] := h2 o (List.mem_cons_self o os)
    have hpts : (o.bound_box.map (fun c => (worldOf o).apply c)) ≠ [] := by
      simpa using hbx
    obtain ⟨a, b, ha, hab⟩ :=
      foldl_updMinMax_none (o.bound_box.map (fun c => (worldOf o).apply c)) hpts
    obtain ⟨mn2, mx2, heq, hmn, hmx, hall⟩ := foldl_boundsFoldObj_bounds os a b
    refine ⟨mn2, mx2, ?_, ?_⟩
    · rw [computeBounds, List.foldl_cons, boundsFoldObj_eq_foldl, ha]; exact heq
    · intro o2 ho2 c hc
      rcases List.mem_cons.mp ho2 with h | h
      · subst h
        have hpt := hab _ (List.mem_map_of_mem _ hc)
        exact ⟨Vec3.le_trans hmn hpt.1, Vec3.le_trans hpt.2 hmx⟩
      · exact hall o2 h c hc

/-- C1: for every non-empty set of mesh objects the bounds fold of
`analyze_and_setup_scene` (lines 183-200) returns a min/max pair bounding
every world-transformed bounding-box corner componentwise, with
center `(min+max)/2` and size the maximal component of `max-min`; and
for an empty mesh set `analyze_and_setup_scene` returns center at the
origin with size 1 (lines 150-151). -/
theorem C1_bounds :
    (∀ objs : List Obj, objs ≠ [] → (∀ o ∈ objs, o.bound_box ≠ []) →
      ∃ mn mx, computeBounds objs = some (mn, mx) ∧
        (∀ o ∈ objs, ∀ c ∈ o.bound_box,
          Vec3.le mn ((worldOf o).apply c) ∧ Vec3.le ((worldOf o).apply c) mx) ∧
        centerSizeOf (computeBounds objs)
          = (Vec3.scale (1 / 2) (Vec3.add mn mx), maxComp (Vec3.sub mx mn))) ∧
    (∀ keep s, get_all_mesh_objects s = [] →
      analyze_and_setup_scene keep s = (s, Vec3.zero, 1)) := by
  constructor
  · intro objs h1 h2
    obtain ⟨mn, mx, heq, hin⟩ := computeBounds_spec objs h1 h2
    exact ⟨mn, mx, heq, hin, by rw [heq]; rfl⟩
  · intro keep s h
    rw [analyze_and_setup_scene, if_pos]
    rw [h]; rfl

/-- Witness for C1 at a one-object scene and at a meshless scene. -/
theorem C1_bounds_witness :
    (∃ mn mx, computeBounds [meshObj "A"] = some (mn, mx) ∧
      (∀ o ∈ [meshObj "A"], ∀ c ∈ o.bound_box,
        Vec3.le mn ((worldOf o).apply c) ∧ Vec3.le ((worldOf o).apply c) mx) ∧
      centerSizeOf (computeBounds [meshObj "A"])
        = (Vec3.scale (1 / 2) (Vec3.add mn mx), maxComp (Vec3.sub mx mn))) ∧
    analyze_and_setup_scene false sceneEmpty = (sceneEmpty, Vec3.zero, 1) :=
  ⟨C1_bounds.1 [meshObj "A"] (by decide) (by decide),
   C1_bounds.2 false sceneEmpty (by decide)⟩

/-! ## Material invariance (C3, C7) -/

/-- A material whose name carries no active keyword is returned unchanged
by the per-material body of `replace_texture` (lines 306-310). -/
theorem processMat_skip (kws : List String) (imgId : Nat) (m : Material)
    (hnm : ∀ kw ∈ kws, strContains m.name kw = false) :
    processMat kws imgId m = m := by
  cases hu : m.use_nodes with
  | false => simp [processMat, hu]
  | true =>
    have hany : (kws.any fun tm => strContains m.name tm) = false := by
      rw [List.any_eq_false]
      intro kw hkw
      simp [hnm kw hkw]
    simp [processMat, hu, hany]

/-- The slot loop preserves every material whose name matches no keyword. -/
theorem replaceSlots_preserves (kws : List String) (imgId : Nat)
    (slots : List (Option Nat)) :
    ∀ (st : List Material) (i : Nat) (m : Material),
      st[i]? = some m → (∀ kw ∈ kws, strContains m.name kw = false) →
      (replaceSlots kws imgId st slots)[i]? = some m := by
  induction slots with
  | nil => intro st i m hm _; exact hm
  | cons sl sls ih =>
    intro st i m hm hnm
    rw [replaceSlots, List.foldl_cons]
    have hstep : (replaceStep kws imgId st sl)[i]? = some m := by
      cases sl with
      | none => simpa [replaceStep] using hm
      | some mi =>
        cases hmi : st[mi]? with
        | none => simpa [replaceStep, hmi] using hm
        | some m2 =>
          rw [replaceStep]
          simp only [hmi]
          by_cases hext : mi = i
          · subst hext
            have hm2 : m2 = m := by
              rw [hm] at hmi
              exact (Option.some.inj hmi).symm
            subst hm2
            rw [processMat_skip kws imgId m2 hnm]
            exact List.getElem?_set_eq_of_lt m2 (List.getElem?_eq_some.mp hm).1
          · rw [List.getElem?_set_ne hext]; exact hm
    exact ih _ i m hstep hnm

/-- The object loop of `replace_texture` preserves every material whose
name matches no keyword. -/
theorem replaceFold_preserves (kws : List String) (imgId : Nat)
    (allowBg : Bool) (objs : List Obj) :
    ∀ (st : List Material) (i : Nat) (m : Material),
      st[i]? = some m → (∀ kw ∈ kws, strContains m.name kw = false) →
      (objs.foldl (fun st o =>
        if o.materialSlots.isEmpty then st
        else if (strContains o.name "VEN" || strContains o.name "CARNAGE")
                && !allowBg then st
        else replaceSlots kws imgId st o.materialSlots) st)[i]? = some m := by
  induction objs with
  | nil => intro st i m hm _; exact hm
  | cons o os ih =>
    intro st i m hm hnm
    rw [List.foldl_cons]
    refine ih _ i m ?_ hnm
    by_cases h1 : o.materialSlots.isEmpty
    · simpa [h1] using hm
    · by_cases h2 :
        ((strContains o.name "VEN" || strContains o.name "CARNAGE") && !allowBg) = true
      · simpa [h1, h2] using hm
      · simp only [h1, h2, if_false, Bool.false_eq_true, if_neg]
        simpa [h1, h2] using replaceSlots_preserves kws imgId o.materialSlots st i m hm hnm

/-- C3: `replace_texture` never modifies a material whose name contains
none of the keywords of the requested target selector; such a material's
whole record (name and shading graph) is unchanged, for every image and
every selector. -/
theorem C3_untouched_materials (image : Option Nat) (target_part : String)
    (s : Scene) (i : Nat) (m : Material)
    (hm : s.materials[i]? = some m)
    (hnm : ∀ kw ∈ targetKeywordsFor target_part, strContains m.name kw = false) :
    (replace_texture image target_part s).materials[i]? = some m := by
  cases image with
  | none => exact hm
  | some imgId =>
    exact replaceFold_preserves (targetKeywordsFor target_part) imgId
      (target_part == "background") (get_all_mesh_objects s) s.materials i m hm hnm

/-- Witness for C3: the unrelated material of `sceneC3` survives a
front-target run byte-for-byte. -/
theorem C3_untouched_materials_witness :
    (replace_texture (some 0) "front" sceneC3).materials[0]? = some matUnrelated :=
  C3_untouched_materials (some 0) "front" sceneC3 0 matUnrelated (by decide) (by decide)

/-- C7 counterexample: on a matched material whose principled node lacks
any base-color socket, `replace_texture`'s per-material body does modify
the material (an image-texture node is created at lines 337-345 even
though the link of line 341 is skipped), so the claim that the material is
left unmodified is false. -/
theorem C7_claim_counterexample :
    processMat ["正面"] 0 matNoBaseColor ≠ matNoBaseColor ∧
    (processMat ["正面"] 0 matNoBaseColor).nodes.length = 2 := by
  constructor
  · decide
  · decide

/-- C7 (amended): for a matched target material whose principled-surface
node has no base-color input socket, `replace_texture` raises no error and
the run proceeds (the per-material body is total), but the material is not
skipped untouched: a new unlinked image-texture node carrying the new
image is appended to its node list, the links being unchanged. -/
theorem C7_amended (kws : List String) (imgId : Nat) (m : Material)
    (bi : Nat) (bsdf : SNode)
    (h1 : m.use_nodes = true)
    (h2 : (kws.any fun tm => strContains m.name tm) = true)
    (h3 : findBsdfIdx m.nodes = some bi)
    (h4 : m.nodes[bi]? = some bsdf)
    (h5 : bsdf.inputs.contains "Base Color" = false)
    (h6 : bsdf.inputs.contains "BaseColor" = false) :
    processMat kws imgId m = { m with nodes := m.nodes ++ [newTexNode imgId] } := by
  have h5m : "Base Color" ∉ bsdf.inputs := by simpa using h5
  have h6m : "BaseColor" ∉ bsdf.inputs := by simpa using h6
  simp [processMat, h1, h2, h3, h4, h5m, h6m]

/-- Witness for the amended C7 on the concrete socketless material. -/
theorem C7_amended_witness :
    processMat ["正面"] 0 matNoBaseColor
      = { matNoBaseColor with nodes := matNoBaseColor.nodes ++ [newTexNode 0] } :=
  C7_amended ["正面"] 0 matNoBaseColor 0 ⟨"BSDF_PRINCIPLED", ["Roughness"], none⟩
    (by decide) (by decide) (by decide) (by decide) (by decide) (by decide)

/-! ## Keyframe insertion lemmas (C2, C8, C10) -/

theorem linKey_idem (k : Key) : linKey (linKey k) = linKey k := rfl

theorem map_linKey_idem (l : List Key) :
    (l.map linKey).map linKey = l.map linKey := by
  simp only [List.map_map]
  exact List.map_congr_left (fun k _ => rfl)

/-- The linearization pass commutes with `keyframe_insert`'s insertion:
linearizing after a Bezier insert equals inserting a linear key into the
linearized list. -/
theorem map_linKey_insertKey (f v : ℚ) (l : List Key) :
    (insertKey f v l).map linKey = insertKeyLin f v (l.map linKey) := by
  induction l with
  | nil => simp [insertKey, insertKeyLin, linKey]
  | cons k ks ih =>
    rcases lt_trichotomy f k.frame with h | h | h
    · simp [insertKey, insertKeyLin, linKey, h]
    · simp [insertKey, insertKeyLin, linKey, h]
    · simp [insertKey, insertKeyLin, linKey, asymm h, ne_of_gt h, ih]

/-- Linearization fixes lists produced by `insertKeyLin`. -/
theorem map_linKey_insertKeyLin (f v : ℚ) (l : List Key) :
    (insertKeyLin f v l).map linKey = insertKeyLin f v (l.map linKey) := by
  induction l with
  | nil => simp [insertKeyLin, linKey]
  | cons k ks ih =>
    rcases lt_trichotomy f k.frame with h | h | h
    · simp [insertKeyLin, linKey, h]
    · simp [insertKeyLin, linKey, h]
    · simp [insertKeyLin, linKey, asymm h, ne_of_gt h, ih]

/-- Re-inserting at the same frame overrides the previous sample. -/
theorem insertKeyLin_override (f v w : ℚ) (l : List Key) :
    insertKeyLin f v (insertKeyLin f w l) = insertKeyLin f v l := by
  induction l with
  | nil => simp [insertKeyLin]
  | cons k ks ih =>
    rcases lt_trichotomy f k.frame with h | h | h
    · simp [insertKeyLin, h]
    · simp [insertKeyLin, h]
    · simp [insertKeyLin, asymm h, ne_of_gt h, ih]

/-- Inserts at distinct frames commute. -/
theorem insertKeyLin_comm (f g v w : ℚ) (hfg : f ≠ g) (l : List Key) :
    insertKeyLin f v (insertKeyLin g w l) = insertKeyLin g w (insertKeyLin f v l) := by
  induction l with
  | nil =>
    rcases lt_trichotomy f g with h | h | h
    · simp [insertKeyLin, h, asymm h, ne_of_gt h]
    · exact absurd h hfg
    · simp [insertKeyLin, h, asymm h, hfg, ne_of_gt h]
  | cons k ks ih =>
    rcases lt_trichotomy f k.frame with hf | hf | hf <;>
      rcases lt_trichotomy g k.frame with hg | hg | hg
    · -- f < K, g < K: compare f with g
      rcases lt_trichotomy f g with h | h | h
      · simp [insertKeyLin, h, hf, hg, asymm h, ne_of_gt h]
      · exact absurd h hfg
      · simp [insertKeyLin, h, hf, hg, asymm h, hfg, ne_of_gt h]
    · -- f < K, g = K
      have hfg2 : f < g := hg ▸ hf
      simp [insertKeyLin, hf, hg, hfg2, asymm hfg2, ne_of_gt hfg2, asymm hf, ne_of_gt hf]
    · -- f < K, g > K
      have hfg2 : f < g := hf.trans hg
      simp [insertKeyLin, hf, hg, asymm hg, ne_of_gt hg, hfg2, asymm hfg2, ne_of_gt hfg2]
    · -- f = K, g < K
      have hgf : g < f := hf ▸ hg
      simp [insertKeyLin, hf, hg, hgf, asymm hgf, ne_of_gt hgf, asymm hg, ne_of_gt hg]
    · -- f = K, g = K: contradiction
      exact absurd (hf.trans hg.symm) hfg
    · -- f = K, g > K
      have hgf : f < g := hf ▸ hg
      simp [insertKeyLin, hf, hg, asymm hg, ne_of_gt hg, hgf, asymm hgf, ne_of_gt hgf]
    · -- f > K, g < K
      have hgf : g < f := hg.trans hf
      simp [insertKeyLin, hf, hg, asymm hf, ne_of_gt hf, hgf, asymm hgf, ne_of_gt hgf]
    · -- f > K, g = K
      have hgf : g < f := hg ▸ hf
      simp [insertKeyLin, hf, hg, asymm hf, ne_of_gt hf, hgf, asymm hgf, ne_of_gt hgf]
    · -- f > K, g > K: recurse
      simp [insertKeyLin, asymm hf, ne_of_gt hf, asymm hg, ne_of_gt hg, hf, hg, ih]

/-- The two-inserts sequence of the turntable is idempotent on linear key
lists. -/
theorem insertKeyLin_quad (a b va vb : ℚ) (l : List Key) :
    insertKeyLin b vb (insertKeyLin a va (insertKeyLin b vb (insertKeyLin a va l)))
      = insertKeyLin b vb (insertKeyLin a va l) := by
  by_cases hab : b = a
  · subst hab
    rw [insertKeyLin_override b va, insertKeyLin_override b vb,
        insertKeyLin_override b vb]
  · rw [insertKeyLin_comm a b va vb (Ne.symm hab),
        insertKeyLin_override b vb, insertKeyLin_override a va]

/-- `insertIntoFCurves` is the `modifyRZ` combinator applied to
`insertKey`. -/
theorem insertIntoFCurves_eq_modifyRZ (f v : ℚ) (L : List FCurve) :
    insertIntoFCurves f v L = modifyRZ (insertKey f v) L := by
  induction L with
  | nil => rfl
  | cons fc fcs ih =>
    simp only [insertIntoFCurves, modifyRZ]
    split_ifs <;> simp [ih]

theorem modifyRZ_comp (h1 h2 : List Key → List Key) (L : List FCurve) :
    modifyRZ h1 (modifyRZ h2 L) = modifyRZ (fun k => h1 (h2 k)) L := by
  induction L with
  | nil => simp [modifyRZ]
  | cons fc fcs ih =>
    by_cases hm : (fc.data_path == "rotation_euler" && fc.array_index == 2) = true
    · simp [modifyRZ, hm]
    · simp [modifyRZ, hm, ih]

theorem modifyRZ_congr (h1 h2 : List Key → List Key)
    (hh : ∀ k, h1 k = h2 k) (L : List FCurve) :
    modifyRZ h1 L = modifyRZ h2 L := by
  induction L with
  | nil => simp [modifyRZ, hh]
  | cons fc fcs ih =>
    by_cases hm : (fc.data_path == "rotation_euler" && fc.array_index == 2) = true
    · simp [modifyRZ, hm, hh]
    · simp [modifyRZ, hm, ih]

theorem linFCurve_idem (fc : FCurve) : linFCurve (linFCurve fc) = linFCurve fc := by
  simp only [linFCurve]
  rw [map_linKey_idem]

theorem map_linFCurve_idem (L : List FCurve) :
    (L.map linFCurve).map linFCurve = L.map linFCurve := by
  simp only [List.map_map]
  exact List.map_congr_left (fun fc _ => linFCurve_idem fc)

/-- The linearization pass commutes with the insertion over fcurve lists. -/
theorem map_linFCurve_insFC (f v : ℚ) (L : List FCurve) :
    (insertIntoFCurves f v L).map linFCurve
      = modifyRZ (insertKeyLin f v) (L.map linFCurve) := by
  induction L with
  | nil => simp [insertIntoFCurves, modifyRZ, linFCurve, insertKey, insertKeyLin, linKey]
  | cons fc fcs ih =>
    by_cases hm : (fc.data_path == "rotation_euler" && fc.array_index == 2) = true
    · simp [insertIntoFCurves, modifyRZ, hm, linFCurve, map_linKey_insertKey]
    · simp [insertIntoFCurves, modifyRZ, hm, linFCurve, ih]

theorem map_linFCurve_modifyRZ_insL (f v : ℚ) (L : List FCurve) :
    (modifyRZ (insertKeyLin f v) L).map linFCurve
      = modifyRZ (insertKeyLin f v) (L.map linFCurve) := by
  induction L with
  | nil => simp [modifyRZ, linFCurve, insertKeyLin, linKey]
  | cons fc fcs ih =>
    by_cases hm : (fc.data_path == "rotation_euler" && fc.array_index == 2) = true
    · simp [modifyRZ, hm, linFCurve, map_linKey_insertKeyLin]
    · simp [modifyRZ, hm, linFCurve, ih]

/-- The full insert-insert-linearize pass of `setup_turntable_animation`
is idempotent on the fcurve list. -/
theorem fcurves_idem (a b va vb : ℚ) (L : List FCurve) :
    (insertIntoFCurves b vb (insertIntoFCurves a va
        ((insertIntoFCurves b vb (insertIntoFCurves a va L)).map linFCurve))).map linFCurve
      = (insertIntoFCurves b vb (insertIntoFCurves a va L)).map linFCurve := by
  set A1 := (insertIntoFCurves b vb (insertIntoFCurves a va L)).map linFCurve with hA1def
  rw [map_linFCurve_insFC, map_linFCurve_insFC]
  have hidem : A1.map linFCurve = A1 := by
    rw [hA1def]; exact map_linFCurve_idem _
  rw [hidem, hA1def, map_linFCurve_insFC, map_linFCurve_insFC]
  simp only [modifyRZ_comp]
  exact modifyRZ_congr _ _ (fun k => insertKeyLin_quad a b va vb k) _

/-! ## Object lookup lemmas -/

theorem findNamedIdx_some {l : List Obj} {nm : String} :
    ∀ {i : Nat}, findNamedIdx l nm = some i →
      ∃ o, l[i]? = some o ∧ o.name = nm := by
  induction l with
  | nil => intro i h; simp [findNamedIdx] at h
  | cons o os ih =>
    intro i h
    rw [findNamedIdx] at h
    by_cases hc : (o.name == nm) = true
    · rw [if_pos hc] at h
      obtain rfl : 0 = i := Option.some.inj h
      exact ⟨o, by simp, by simpa using hc⟩
    · rw [if_neg hc] at h
      obtain ⟨j, hj, rfl⟩ := Option.map_eq_some'.mp h
      obtain ⟨o2, ho2, hn⟩ := ih hj
      exact ⟨o2, by simpa using ho2, hn⟩

theorem findNamedIdx_set_of_name_eq {l : List Obj} {i : Nat} {o u : Obj}
    (ho : l[i]? = some o) (hn : u.name = o.name) (nm : String) :
    findNamedIdx (l.set i u) nm = findNamedIdx l nm := by
  induction l generalizing i with
  | nil => simp
  | cons a as ih =>
    cases i with
    | zero =>
      obtain rfl : a = o := by simpa using ho
      simp [findNamedIdx, hn]
    | succ j =>
      have hj : as[j]? = some o := by simpa using ho
      simp [findNamedIdx, List.set_cons_succ, ih hj]

/-! ## Turntable (C2, C8, C10) -/

theorem turntableUpdate_name (F : Int) (R : ℚ) (o : Obj) :
    (turntableUpdate F R o).name = o.name := by
  simp [turntableUpdate, keyframe_insert_rotZ]

/-- The per-object turntable pass is idempotent. -/
theorem turntableUpdate_idem (F : Int) (R : ℚ) (o : Obj) :
    turntableUpdate F R (turntableUpdate F R o) = turntableUpdate F R o := by
  cases o with
  | mk nm ot sl bb pw mpi mb rm re act =>
    cases act with
    | none =>
      simp only [turntableUpdate, keyframe_insert_rotZ, linearizeAction, Option.getD,
        Option.map]
      simp [fcurves_idem]
    | some a =>
      simp only [turntableUpdate, keyframe_insert_rotZ, linearizeAction, Option.getD,
        Option.map]
      simp [fcurves_idem]

/-- C8: invoking `setup_turntable_animation` twice with identical frame and
rotation counts yields exactly the scene (hence in particular the rotation
track) produced by invoking it once. -/
theorem C8_idempotent (F : Int) (R : ℚ) (s : Scene) :
    setup_turntable_animation F R (setup_turntable_animation F R s)
      = setup_turntable_animation F R s := by
  cases hc : findNamedIdx s.objs "CardParent" with
  | some i =>
    obtain ⟨o, ho, hname⟩ := findNamedIdx_some hc
    have hlen : i < s.objs.length := (List.getElem?_eq_some.mp ho).1
    have h1 : setup_turntable_animation F R s
        = { s with objs := s.objs.set i (turntableUpdate F R o) } := by
      rw [setup_turntable_animation]
      simp [hc, ho]
    rw [h1]
    rw [setup_turntable_animation]
    have hc2 : findNamedIdx (s.objs.set i (turntableUpdate F R o)) "CardParent"
        = some i := by
      rw [findNamedIdx_set_of_name_eq ho (turntableUpdate_name F R o)]
      exact hc
    have hget : (s.objs.set i (turntableUpdate F R o))[i]?
        = some (turntableUpdate F R o) :=
      List.getElem?_set_eq_of_lt _ (by simpa using hlen)
    simp only [hc2, hget]
    rw [List.set_set, turntableUpdate_idem]
  | none =>
    cases hm : findNamedIdx s.objs "ModelParent" with
    | some j =>
      obtain ⟨o, ho, hname⟩ := findNamedIdx_some hm
      have hlen : j < s.objs.length := (List.getElem?_eq_some.mp ho).1
      have h1 : setup_turntable_animation F R s
          = { s with objs := s.objs.set j (turntableUpdate F R o) } := by
        rw [setup_turntable_animation]
        simp [hc, hm, ho]
      rw [h1]
      rw [setup_turntable_animation]
      have hc2 : findNamedIdx (s.objs.set j (turntableUpdate F R o)) "CardParent"
          = none := by
        rw [findNamedIdx_set_of_name_eq ho (turntableUpdate_name F R o)]
        exact hc
      have hm2 : findNamedIdx (s.objs.set j (turntableUpdate F R o)) "ModelParent"
          = some j := by
        rw [findNamedIdx_set_of_name_eq ho (turntableUpdate_name F R o)]
        exact hm
      have hget : (s.objs.set j (turntableUpdate F R o))[j]?
          = some (turntableUpdate F R o) :=
        List.getElem?_set_eq_of_lt _ (by simpa using hlen)
      simp only [hc2, hm2, hget]
      rw [List.set_set, turntableUpdate_idem]
    | none =>
      have h1 : setup_turntable_animation F R s = s := by
        rw [setup_turntable_animation]
        simp [hc, hm]
      rw [h1, h1]

/-- C2 counterexample: `keyframe_insert` does not clear the channel, so a
pivot carrying a pre-authored sample at frame 50 ends up with 3 samples
after `setup_turntable_animation(120, 1)`, not the claimed 2.  The prior
sample survives (relinearized), refuting "exactly 2 samples ... regardless
of any samples present on that channel beforehand". -/
theorem C2_claim_counterexample :
    (setup_turntable_animation 120 1 sceneC2).objs[0]?.map
        (fun o => (trackOf o).length) = some 3 ∧
    (setup_turntable_animation 120 1 sceneC2).objs[0]?.map
        (fun o => (trackOf o).map (fun k => k.frame)) = some [1, 50, 121] := by
  constructor
  · with_unfolding_all rfl
  · with_unfolding_all rfl

/-- C2 (amended): provided the pivot carries no animation data beforehand,
`setup_turntable_animation(F, R)` with `F ≥ 1` produces exactly 2 samples
on the pivot's z-rotation channel: frame 1 with angle 0 and frame `F+1`
with angle `2·π·R`, both with linear interpolation.  (Pre-existing samples
at other frames would be retained, as the counterexample shows.) -/
theorem C2_amended (F : Int) (R : ℚ) (s : Scene) (i : Nat) (o : Obj)
    (hF : 1 ≤ F)
    (hfind : findNamedIdx s.objs "CardParent" = some i)
    (ho : s.objs[i]? = some o)
    (hanim : o.action = none) :
    ∃ o2, (setup_turntable_animation F R s).objs[i]? = some o2 ∧
      trackOf o2 = [⟨1, 0, Interp.LINEAR⟩,
                    ⟨(F : ℚ) + 1, 2 * mathPi * R, Interp.LINEAR⟩] := by
  have hlen : i < s.objs.length := (List.getElem?_eq_some.mp ho).1
  have hres : setup_turntable_animation F R s
      = { s with objs := s.objs.set i (turntableUpdate F R o) } := by
    rw [setup_turntable_animation]
    simp [hfind, ho]
  refine ⟨turntableUpdate F R o, ?_, ?_⟩
  · rw [hres]
    exact List.getElem?_set_eq_of_lt _ (by simpa using hlen)
  · have h1 : ¬((F : ℚ) + 1 < 1) := by
      have : (1 : ℚ) ≤ (F : ℚ) := by exact_mod_cast hF
      linarith
    have h2 : ¬((F : ℚ) + 1 = 1) := by
      have : (1 : ℚ) ≤ (F : ℚ) := by exact_mod_cast hF
      intro hcon
      linarith
    simp [turntableUpdate, keyframe_insert_rotZ, hanim, insertIntoFCurves,
      insertKey, h1, h2, linearizeAction, linFCurve, linKey, trackOf, trackOfFC]

/-- Witness for the amended C2 on a fresh pivot with F = 120, R = 1. -/
theorem C2_amended_witness :
    ∃ o2, (setup_turntable_animation 120 1 sceneC2w).objs[0]? = some o2 ∧
      trackOf o2 = [⟨1, 0, Interp.LINEAR⟩,
                    ⟨(120 : ℚ) + 1, 2 * mathPi * 1, Interp.LINEAR⟩] :=
  C2_amended 120 1 sceneC2w 0 (newEmptyAt "CardParent" Vec3.zero)
    (by decide) (by decide) (by decide) (by decide)

/-- C10: when no object named CardParent exists, `setup_turntable_animation`
falls back to an object named ModelParent when present (lines 350-354) and
animates it; when neither exists it returns with the scene unmodified
(lines 356-357). -/
theorem C10_fallback (F : Int) (R : ℚ) (s : Scene)
    (hc : findNamedIdx s.objs "CardParent" = none) :
    (∀ j, findNamedIdx s.objs "ModelParent" = some j →
      ∃ o, s.objs[j]? = some o ∧
        setup_turntable_animation F R s
          = { s with objs := s.objs.set j (turntableUpdate F R o) }) ∧
    (findNamedIdx s.objs "ModelParent" = none →
      setup_turntable_animation F R s = s) := by
  constructor
  · intro j hm
    obtain ⟨o, ho, hname⟩ := findNamedIdx_some hm
    refine ⟨o, ho, ?_⟩
    rw [setup_turntable_animation]
    simp [hc, hm, ho]
  · intro hm
    rw [setup_turntable_animation]
    simp [hc, hm]

/-- Witness for C10 on a scene with only a ModelParent (fallback animates
it) and a scene with neither (no-op). -/
theorem C10_fallback_witness :
    (∃ o, sceneC10.objs[1]? = some o ∧
      setup_turntable_animation 120 1 sceneC10
        = { sceneC10 with objs := sceneC10.objs.set 1 (turntableUpdate 120 1 o) }) ∧
    setup_turntable_animation 120 1 sceneC10b = sceneC10b :=
  ⟨(C10_fallback 120 1 sceneC10 (by decide)).1 1 (by decide),
   (C10_fallback 120 1 sceneC10b (by decide)).2 (by decide)⟩

/-! ## Animation length (C5) -/

theorem animMaxStep_ge (q : ℚ) (o : Obj) : q ≤ animMaxStep q o := by
  cases h : o.action with
  | none => simp [animMaxStep, h]
  | some a => simp [animMaxStep, h]

theorem foldl_animMaxStep_ge (l : List Obj) :
    ∀ q : ℚ, q ≤ l.foldl animMaxStep q := by
  induction l with
  | nil => intro q; simp
  | cons o os ih =>
    intro q
    calc q ≤ animMaxStep q o := animMaxStep_ge q o
      _ ≤ os.foldl animMaxStep (animMaxStep q o) := ih _
      _ = (o :: os).foldl animMaxStep q := by simp

theorem foldl_animMaxStep_bounds (l : List Obj) :
    ∀ q : ℚ, ∀ o ∈ l, ∀ a, o.action = some a →
      a.frame_range_end ≤ l.foldl animMaxStep q := by
  induction l with
  | nil => intro q o ho; simp at ho
  | cons o2 os ih =>
    intro q o ho a ha
    rcases List.mem_cons.mp ho with h | h
    · subst h
      have h1 : a.frame_range_end ≤ animMaxStep q o := by
        simp [animMaxStep, ha]
      calc a.frame_range_end ≤ animMaxStep q o := h1
        _ ≤ os.foldl animMaxStep (animMaxStep q o) := foldl_animMaxStep_ge os _
        _ = (o :: os).foldl animMaxStep q := by simp
    · simpa using ih (animMaxStep q o2) o h a ha

theorem foldl_animMaxStep_attained (l : List Obj) :
    ∀ q : ℚ, l.foldl animMaxStep q = q ∨
      ∃ o ∈ l, ∃ a, o.action = some a ∧
        l.foldl animMaxStep q = a.frame_range_end := by
  induction l with
  | nil => intro q; left; rfl
  | cons o os ih =>
    intro q
    cases ha : o.action with
    | none =>
      have hstep : animMaxStep q o = q := by simp [animMaxStep, ha]
      rcases ih (animMaxStep q o) with h | ⟨o2, ho2, a2, ha2, he⟩
      · left; simpa [hstep] using h
      · right
        exact ⟨o2, List.mem_cons_of_mem o ho2, a2, ha2, by simpa using he⟩
    | some a =>
      have hstep : animMaxStep q o = max q a.frame_range_end := by
        simp [animMaxStep, ha]
      rcases ih (animMaxStep q o) with h | ⟨o2, ho2, a2, ha2, he⟩
      · rcases le_total a.frame_range_end q with hle | hle
        · left
          simp only [List.foldl_cons] at *
          rw [h, hstep, max_eq_left hle]
        · right
          refine ⟨o, List.mem_cons_self o os, a, ha, ?_⟩
          simp only [List.foldl_cons] at *
          rw [h, hstep, max_eq_right hle]
      · right
        exact ⟨o2, List.mem_cons_of_mem o ho2, a2, ha2, by simpa using he⟩

/-- C5: when preservation applies (`--rotations` unspecified and an
existing animation detected) and `--frames` unspecified, the effective
frame count is `get_animation_length`, which equals the scene's declared
`frame_end` unless `frame_end` is below the minimal threshold 2 and some
mesh object's action extends past it, in which case the (truncated)
maximal authored action extent is returned. -/
theorem C5_effective_frames (s : Scene) (argsFrames : Int) (argsRot : ℚ)
    (h1 : argsRot < 0) (h2 : check_if_animation_exists s = true)
    (h3 : argsFrames = 0) :
    (animationPlan argsFrames argsRot s).1 = true ∧
    (animationPlan argsFrames argsRot s).2.1 = get_animation_length s ∧
    (maxFrameFold s > (s.frame_end : ℚ) ↔
      ∃ o ∈ get_all_mesh_objects s, ∃ a, o.action = some a ∧
        a.frame_range_end > (s.frame_end : ℚ)) ∧
    (¬(maxFrameFold s > (s.frame_end : ℚ) ∧ s.frame_end < 2) →
      get_animation_length s = s.frame_end) ∧
    ((maxFrameFold s > (s.frame_end : ℚ) ∧ s.frame_end < 2) →
      get_animation_length s = pyInt (maxFrameFold s) ∧
      (∀ o ∈ get_all_mesh_objects s, ∀ a, o.action = some a →
        a.frame_range_end ≤ maxFrameFold s) ∧
      (∃ o ∈ get_all_mesh_objects s, ∃ a, o.action = some a ∧
        maxFrameFold s = a.frame_range_end)) := by
  subst h3
  refine ⟨?_, ?_, ?_, ?_, ?_⟩
  · simp [animationPlan, h1, h2]
  · simp [animationPlan, h1, h2]
  · constructor
    · intro hgt
      rcases foldl_animMaxStep_attained (get_all_mesh_objects s) ((s.frame_end : ℚ))
        with h | ⟨o, ho, a, ha, he⟩
      · rw [maxFrameFold] at hgt
        rw [h] at hgt
        exact absurd hgt (lt_irrefl _)
      · exact ⟨o, ho, a, ha, by rw [maxFrameFold] at hgt; rw [he] at hgt; exact hgt⟩
    · rintro ⟨o, ho, a, ha, hgt⟩
      have := foldl_animMaxStep_bounds (get_all_mesh_objects s)
        ((s.frame_end : ℚ)) o ho a ha
      rw [maxFrameFold]
      exact lt_of_lt_of_le hgt this
  · intro hcond
    rw [get_animation_length, if_neg]
    exact hcond
  · intro hcond
    refine ⟨by rw [get_animation_length, if_pos hcond], ?_, ?_⟩
    · intro o ho a ha
      exact foldl_animMaxStep_bounds (get_all_mesh_objects s) _ o ho a ha
    · rcases foldl_animMaxStep_attained (get_all_mesh_objects s) ((s.frame_end : ℚ))
        with h | ⟨o, ho, a, ha, he⟩
      · exfalso
        have := hcond.1
        rw [maxFrameFold, h] at this
        exact absurd this (lt_irrefl _)
      · exact ⟨o, ho, a, ha, by rw [maxFrameFold, he]⟩

/-- Witness for C5: Scenario C — authored extent 200, frame_end 1,
rotations and frames unspecified, gives effective frame count 200. -/
theorem C5_effective_frames_witness :
    ((animationPlan 0 (-1) sceneC5).1 = true ∧
     (animationPlan 0 (-1) sceneC5).2.1 = get_animation_length sceneC5 ∧
     (maxFrameFold sceneC5 > ((sceneC5.frame_end : Int) : ℚ) ↔
       ∃ o ∈ get_all_mesh_objects sceneC5, ∃ a, o.action = some a ∧
         a.frame_range_end > ((sceneC5.frame_end : Int) : ℚ)) ∧
     (¬(maxFrameFold sceneC5 > ((sceneC5.frame_end : Int) : ℚ) ∧ sceneC5.frame_end < 2) →
       get_animation_length sceneC5 = sceneC5.frame_end) ∧
     ((maxFrameFold sceneC5 > ((sceneC5.frame_end : Int) : ℚ) ∧ sceneC5.frame_end < 2) →
       get_animation_length sceneC5 = pyInt (maxFrameFold sceneC5) ∧
       (∀ o ∈ get_all_mesh_objects sceneC5, ∀ a, o.action = some a →
         a.frame_range_end ≤ maxFrameFold sceneC5) ∧
       (∃ o ∈ get_all_mesh_objects sceneC5, ∃ a, o.action = some a ∧
         maxFrameFold sceneC5 = a.frame_range_end))) ∧
    (animationPlan 0 (-1) sceneC5).2.1 = 200 := by
  constructor
  · exact C5_effective_frames sceneC5 0 (-1) (by norm_num) (by decide) rfl
  · with_unfolding_all rfl

/-! ## Pipeline order (C9) -/

/-- C9 counterexample: in `main`, animation detection (line 528) runs
before `analyze_and_setup_scene` (line 559) on every invocation, and
texture rewiring (lines 515-523) also runs before it whenever a texture is
supplied, so neither "stages 1-2 before stage 6" nor "stage 7 only after
stage 3" holds of the code. -/
theorem C9_claim_counterexample :
    ¬ stageBefore (mainTrace false false false false false false false false)
        Stage.pivot Stage.animDetect ∧
    ¬ stageBefore (mainTrace true false false false false false false false)
        Stage.classify Stage.texture := by
  constructor
  · decide
  · decide

/-- Splitting principle: when `b` never occurs in the prefix and `a`
never occurs in the suffix, all `a`s come before all `b`s. -/
theorem stageBefore_of_split (l1 l2 : List Stage) (a b : Stage)
    (hbl1 : b ∉ l1) (hal2 : a ∉ l2) : stageBefore (l1 ++ l2) a b := by
  intro i _ j _ hia hjb
  have hi2 : i < l1.length := by
    by_contra hcon
    rw [List.getElem?_append, if_neg hcon] at hia
    exact hal2 (List.getElem?_mem hia)
  have hj2 : ¬ j < l1.length := by
    intro hcon
    rw [List.getElem?_append, if_pos hcon] at hjb
    exact hbl1 (List.getElem?_mem hjb)
  omega

theorem mem_singletonIf {x y : Stage} {c : Prop} [Decidable c]
    (h : x ∈ if c then [y] else []) : x = y := by
  split at h
  · simpa using h
  · simp at h

theorem mem_texPrefix {x : Stage} {t f b bg : Bool}
    (h : x ∈ ((if t = true then [Stage.texture] else [])
        ++ ((if f = true then [Stage.texture] else [])
        ++ ((if b = true then [Stage.texture] else [])
        ++ (if bg = true then [Stage.texture] else []))))) :
    x = Stage.texture := by
  rcases List.mem_append.mp h with h | h
  · exact mem_singletonIf h
  rcases List.mem_append.mp h with h | h
  · exact mem_singletonIf h
  rcases List.mem_append.mp h with h | h
  · exact mem_singletonIf h
  · exact mem_singletonIf h

theorem mem_camIf {x : Stage} {ib cam : Bool}
    (h : x ∈ if (!ib) = true then [Stage.light, Stage.camera]
        else if (!cam) = true then [Stage.camera] else []) :
    x = Stage.light ∨ x = Stage.camera := by
  split at h
  · simpa using h
  · split at h
    · right; simpa using h
    · simp at h

theorem not_mem_camTurn {x : Stage} {ib cam rneg anim : Bool}
    (hl : x ≠ Stage.light) (hc : x ≠ Stage.camera) (ht : x ≠ Stage.turntable) :
    x ∉ ((if (!ib) = true then [Stage.light, Stage.camera]
          else if (!cam) = true then [Stage.camera] else [])
        ++ (if (!(rneg && anim)) = true then [Stage.turntable] else [])) := by
  intro hx
  rcases List.mem_append.mp hx with h | h
  · rcases mem_camIf h with h2 | h2
    · exact hl h2
    · exact hc h2
  · exact ht (mem_singletonIf h)

/-- C9 (amended): in every invocation, classification runs before bounds
computation, which runs before pivot creation; the pivot stage precedes
camera placement, light placement and turntable synthesis whenever those
run; but material texture rewiring and animation detection run before
classification/bounds/pivot, not after. -/
theorem C9_amended :
    ∀ hasTexture hasTexFront hasTexBack hasTexBg isBlend blendHasCamera
        rotationsNeg sceneHasAnim : Bool,
      stageBefore (mainTrace hasTexture hasTexFront hasTexBack hasTexBg isBlend
          blendHasCamera rotationsNeg sceneHasAnim) Stage.classify Stage.boundsStage ∧
      stageBefore (mainTrace hasTexture hasTexFront hasTexBack hasTexBg isBlend
          blendHasCamera rotationsNeg sceneHasAnim) Stage.boundsStage Stage.pivot ∧
      stageBefore (mainTrace hasTexture hasTexFront hasTexBack hasTexBg isBlend
          blendHasCamera rotationsNeg sceneHasAnim) Stage.classify Stage.pivot ∧
      stageBefore (mainTrace hasTexture hasTexFront hasTexBack hasTexBg isBlend
          blendHasCamera rotationsNeg sceneHasAnim) Stage.pivot Stage.camera ∧
      stageBefore (mainTrace hasTexture hasTexFront hasTexBack hasTexBg isBlend
          blendHasCamera rotationsNeg sceneHasAnim) Stage.pivot Stage.light ∧
      stageBefore (mainTrace hasTexture hasTexFront hasTexBack hasTexBg isBlend
          blendHasCamera rotationsNeg sceneHasAnim) Stage.pivot Stage.turntable ∧
      stageBefore (mainTrace hasTexture hasTexFront hasTexBack hasTexBg isBlend
          blendHasCamera rotationsNeg sceneHasAnim) Stage.texture Stage.classify ∧
      stageBefore (mainTrace hasTexture hasTexFront hasTexBack hasTexBg isBlend
          blendHasCamera rotationsNeg sceneHasAnim) Stage.animDetect Stage.classify := by
  intro t f b bg ib cam rneg anim
  refine ⟨?_, ?_, ?_, ?_, ?_, ?_, ?_, ?_⟩
  · -- classify before boundsStage
    have hL : mainTrace t f b bg ib cam rneg anim
        = (((if t = true then [Stage.texture] else [])
            ++ ((if f = true then [Stage.texture] else [])
            ++ ((if b = true then [Stage.texture] else [])
            ++ (if bg = true then [Stage.texture] else []))))
            ++ [Stage.animDetect, Stage.classify])
          ++ (Stage.boundsStage :: Stage.pivot
            :: ((if (!ib) = true then [Stage.light, Stage.camera]
                 else if (!cam) = true then [Stage.camera] else [])
              ++ (if (!(rneg && anim)) = true then [Stage.turntable] else []))) := by
      simp [mainTrace, List.append_assoc]
    rw [hL]
    apply stageBefore_of_split
    · intro hx
      rcases List.mem_append.mp hx with h | h
      · exact Stage.noConfusion (mem_texPrefix h)
      · simp at h
    · intro hx
      simp only [List.mem_cons] at hx
      rcases hx with h | h | h
      · exact Stage.noConfusion h
      · exact Stage.noConfusion h
      · exact not_mem_camTurn (by simp) (by simp) (by simp) h
  · -- boundsStage before pivot
    have hL : mainTrace t f b bg ib cam rneg anim
        = (((if t = true then [Stage.texture] else [])
            ++ ((if f = true then [Stage.texture] else [])
            ++ ((if b = true then [Stage.texture] else [])
            ++ (if bg = true then [Stage.texture] else []))))
            ++ [Stage.animDetect, Stage.classify, Stage.boundsStage])
          ++ (Stage.pivot
            :: ((if (!ib) = true then [Stage.light, Stage.camera]
                 else if (!cam) = true then [Stage.camera] else [])
              ++ (if (!(rneg && anim)) = true then [Stage.turntable] else []))) := by
      simp [mainTrace, List.append_assoc]
    rw [hL]
    apply stageBefore_of_split
    · intro hx
      rcases List.mem_append.mp hx with h | h
      · exact Stage.noConfusion (mem_texPrefix h)
      · simp at h
    · intro hx
      simp only [List.mem_cons] at hx
      rcases hx with h | h
      · exact Stage.noConfusion h
      · exact not_mem_camTurn (by simp) (by simp) (by simp) h
  · -- classify before pivot
    have hL : mainTrace t f b bg ib cam rneg anim
        = (((if t = true then [Stage.texture] else [])
            ++ ((if f = true then [Stage.texture] else [])
            ++ ((if b = true then [Stage.texture] else [])
            ++ (if bg = true then [Stage.texture] else []))))
            ++ [Stage.animDetect, Stage.classify, Stage.boundsStage])
          ++ (Stage.pivot
            :: ((if (!ib) = true then [Stage.light, Stage.camera]
                 else if (!cam) = true then [Stage.camera] else [])
              ++ (if (!(rneg && anim)) = true then [Stage.turntable] else []))) := by
      simp [mainTrace, List.append_assoc]
    rw [hL]
    apply stageBefore_of_split
    · intro hx
      rcases List.mem_append.mp hx with h | h
      · exact Stage.noConfusion (mem_texPrefix h)
      · simp at h
    · intro hx
      simp only [List.mem_cons] at hx
      rcases hx with h | h
      · exact Stage.noConfusion h
      · exact not_mem_camTurn (by simp) (by simp) (by simp) h
  · -- pivot before camera
    have hL : mainTrace t f b bg ib cam rneg anim
        = (((if t = true then [Stage.texture] else [])
            ++ ((if f = true then [Stage.texture] else [])
            ++ ((if b = true then [Stage.texture] else [])
            ++ (if bg = true then [Stage.texture] else []))))
            ++ [Stage.animDetect, Stage.classify, Stage.boundsStage, Stage.pivot])
          ++ ((if (!ib) = true then [Stage.light, Stage.camera]
               else if (!cam) = true then [Stage.camera] else [])
            ++ (if (!(rneg && anim)) = true then [Stage.turntable] else [])) := by
      simp [mainTrace, List.append_assoc]
    rw [hL]
    apply stageBefore_of_split
    · intro hx
      rcases List.mem_append.mp hx with h | h
      · exact Stage.noConfusion (mem_texPrefix h)
      · simp at h
    · exact not_mem_camTurn (by simp) (by simp) (by simp)
  · -- pivot before light
    have hL : mainTrace t f b bg ib cam rneg anim
        = (((if t = true then [Stage.texture] else [])
            ++ ((if f = true then [Stage.texture] else [])
            ++ ((if b = true then [Stage.texture] else [])
            ++ (if bg = true then [Stage.texture] else []))))
            ++ [Stage.animDetect, Stage.classify, Stage.boundsStage, Stage.pivot])
          ++ ((if (!ib) = true then [Stage.light, Stage.camera]
               else if (!cam) = true then [Stage.camera] else [])
            ++ (if (!(rneg && anim)) = true then [Stage.turntable] else [])) := by
      simp [mainTrace, List.append_assoc]
    rw [hL]
    apply stageBefore_of_split
    · intro hx
      rcases List.mem_append.mp hx with h | h
      · exact Stage.noConfusion (mem_texPrefix h)
      · simp at h
    · exact not_mem_camTurn (by simp) (by simp) (by simp)
  · -- pivot before turntable
    have hL : mainTrace t f b bg ib cam rneg anim
        = (((if t = true then [Stage.texture] else [])
            ++ ((if f = true then [Stage.texture] else [])
            ++ ((if b = true then [Stage.texture] else [])
            ++ (if bg = true then [Stage.texture] else []))))
            ++ [Stage.animDetect, Stage.classify, Stage.boundsStage, Stage.pivot])
          ++ ((if (!ib) = true then [Stage.light, Stage.camera]
               else if (!cam) = true then [Stage.camera] else [])
            ++ (if (!(rneg && anim)) = true then [Stage.turntable] else [])) := by
      simp [mainTrace, List.append_assoc]
    rw [hL]
    apply stageBefore_of_split
    · intro hx
      rcases List.mem_append.mp hx with h | h
      · exact Stage.noConfusion (mem_texPrefix h)
      · simp at h
    · exact not_mem_camTurn (by simp) (by simp) (by simp)
  · -- texture before classify
    have hL : mainTrace t f b bg ib cam rneg anim
        = ((if t = true then [Stage.texture] else [])
            ++ ((if f = true then [Stage.texture] else [])
            ++ ((if b = true then [Stage.texture] else [])
            ++ (if bg = true then [Stage.texture] else []))))
          ++ (Stage.animDetect :: Stage.classify :: Stage.boundsStage :: Stage.pivot
            :: ((if (!ib) = true then [Stage.light, Stage.camera]
                 else if (!cam) = true then [Stage.camera] else [])
              ++ (if (!(rneg && anim)) = true then [Stage.turntable] else []))) := by
      simp [mainTrace, List.append_assoc]
    rw [hL]
    apply stageBefore_of_split
    · intro hx
      exact Stage.noConfusion (mem_texPrefix hx)
    · intro hx
      simp only [List.mem_cons] at hx
      rcases hx with h | h | h | h | h
      · exact Stage.noConfusion h
      · exact Stage.noConfusion h
      · exact Stage.noConfusion h
      · exact Stage.noConfusion h
      · exact not_mem_camTurn (by simp) (by simp) (by simp) h
  · -- animDetect before classify
    have hL : mainTrace t f b bg ib cam rneg anim
        = (((if t = true then [Stage.texture] else [])
            ++ ((if f = true then [Stage.texture] else [])
            ++ ((if b = true then [Stage.texture] else [])
            ++ (if bg = true then [Stage.texture] else []))))
            ++ [Stage.animDetect])
          ++ (Stage.classify :: Stage.boundsStage :: Stage.pivot
            :: ((if (!ib) = true then [Stage.light, Stage.camera]
                 else if (!cam) = true then [Stage.camera] else [])
              ++ (if (!(rneg && anim)) = true then [Stage.turntable] else []))) := by
      simp [mainTrace, List.append_assoc]
    rw [hL]
    apply stageBefore_of_split
    · intro hx
      rcases List.mem_append.mp hx with h | h
      · exact Stage.noConfusion (mem_texPrefix h)
      · simp at h
    · intro hx
      simp only [List.mem_cons] at hx
      rcases hx with h | h | h | h
      · exact Stage.noConfusion h
      · exact Stage.noConfusion h
      · exact Stage.noConfusion h
      · exact not_mem_camTurn (by simp) (by simp) (by simp) h

/-! ## Affine lemmas for keep-transform reparenting (C4) -/

theorem Mat3.inv_one : Mat3.one.inv = Mat3.one := by
  with_unfolding_all rfl

theorem Mat3.one_mul (M : Mat3) : Mat3.one.mul M = M := by
  cases M
  simp [Mat3.mul, Mat3.one]

theorem Mat3.one_mulVec (v : Vec3) : Mat3.one.mulVec v = v := by
  cases v
  simp [Mat3.mulVec, Mat3.one]

/-- Keep-transform algebra: composing the freshly created pivot's world
matrix (a pure translation) with its own inverse as parent-inverse leaves
any basis matrix unchanged. -/
theorem translation_comp_inverted (c : Vec3) (B : Affine) :
    (Affine.translation c).comp ((Affine.inverted (Affine.translation c)).comp B) = B := by
  cases B with
  | mk L t =>
    simp only [Affine.translation, Affine.inverted, Affine.comp]
    rw [Mat3.inv_one]
    simp only [Mat3.one_mul, Mat3.one_mulVec]
    cases c with
    | mk cx cy cz =>
      cases t with
      | mk tx ty tz =>
        simp only [Vec3.add, Vec3.neg, Affine.mk.injEq, Vec3.mk.injEq]
        exact ⟨trivial, by ring, by ring, by ring⟩

/-! ## Stage lemmas for `analyze_and_setup_scene` (C4, C6) -/

/-- Clearing animation does not change the classification of an object. -/
theorem is_card_clearObjAnim (s : Scene) (o : Obj) :
    is_card s (clearObjAnim o) = is_card s o := by
  simp [is_card, is_bg, clearObjAnim]

theorem clearObjAnim_name (o : Obj) : (clearObjAnim o).name = o.name := rfl

theorem clearObjAnim_basis (o : Obj) : (clearObjAnim o).matrix_basis = o.matrix_basis := rfl

theorem clearObjAnim_parentWorld (o : Obj) :
    (clearObjAnim o).parentWorld = o.parentWorld := rfl

theorem clearCardAnim_getElem (keep : Bool) (pred : Obj → Bool)
    (objs : List Obj) (i : Nat) (o : Obj) (ho : objs[i]? = some o) :
    (clearCardAnim keep pred objs)[i]?
      = some (if !keep && pred o then clearObjAnim o else o) := by
  rw [clearCardAnim, List.getElem?_map, ho]
  rfl

theorem clearCardAnim_length (keep : Bool) (pred : Obj → Bool) (objs : List Obj) :
    (clearCardAnim keep pred objs).length = objs.length := by
  simp [clearCardAnim]

theorem reparentCards_getElem (pred : Obj → Bool) (pw : Affine)
    (objs : List Obj) (i : Nat) (o : Obj) (ho : objs[i]? = some o) :
    (reparentCards pred pw objs)[i]?
      = some (if pred o then reparentObj pw o else o) := by
  rw [reparentCards, List.getElem?_map, ho]
  rfl

theorem placeFocus_getElem (c : Vec3) (objs : List Obj) (i : Nat) (o : Obj)
    (ho : objs[i]? = some o) (hn : o.name ≠ "FocusPoint") :
    (placeFocus c objs)[i]? = some o := by
  rw [placeFocus]
  split
  · rw [List.getElem?_map, ho]
    simp [hn]
  · have hlt : i < objs.length := (List.getElem?_eq_some.mp ho).1
    rw [List.getElem?_append, if_pos hlt]
    exact ho

/-- C4 counterexample: a card mesh that already had a parent (world matrix
translation by (1,0,0), basis identity) ends up with the identity world
matrix after the reparent — its world transform is not preserved, because
`matrix_parent_inverse` only compensates the new parent, not the lost old
one. -/
theorem C4_claim_counterexample :
    ((analyze_and_setup_scene false sceneC4).1.objs[0]?).map worldOf
      = some Affine.idA ∧
    worldOf objC4 = Affine.translation ⟨1, 0, 0⟩ ∧
    Affine.idA ≠ Affine.translation ⟨1, 0, 0⟩ := by
  refine ⟨?_, ?_, ?_⟩
  · with_unfolding_all rfl
  · with_unfolding_all rfl
  · decide

/-- C4 (amended): reparenting in `analyze_and_setup_scene` preserves the
world transform of every subject mesh object that had no parent before the
call (so that its world matrix equals its basis matrix) and is not the
node named FocusPoint (whose location the function overwrites later);
then the new world matrix `pivot_world * pivot_world⁻¹ * basis` equals the
old one exactly. -/
theorem C4_amended (keep : Bool) (s : Scene) (i : Nat) (o : Obj)
    (ho : s.objs[i]? = some o)
    (hcard : is_card s o = true)
    (hnp : o.parentWorld = none)
    (hnf : o.name ≠ "FocusPoint") :
    ∃ o2, (analyze_and_setup_scene keep s).1.objs[i]? = some o2 ∧
      worldOf o2 = worldOf o := by
  have hmesh : (o.otype == "MESH") = true := by
    have h := hcard
    simp only [is_card, Bool.and_eq_true] at h
    exact h.1
  have homem : o ∈ s.objs := List.getElem?_mem ho
  have hnonempty : ¬(get_all_mesh_objects s).isEmpty = true := by
    rw [List.isEmpty_iff]
    intro hcon
    have hm : o ∈ get_all_mesh_objects s := List.mem_filter.mpr ⟨homem, hmesh⟩
    rw [hcon] at hm
    simp at hm
  -- the object after the animation-clear step
  set g1 := if !keep && is_card s o then clearObjAnim o else o with hg1
  have hgcard : is_card s g1 = true := by
    rw [hg1]
    split
    · rw [is_card_clearObjAnim]; exact hcard
    · exact hcard
  have hgname : g1.name = o.name := by
    rw [hg1]; split <;> rfl
  have hgbasis : g1.matrix_basis = o.matrix_basis := by
    rw [hg1]; split <;> rfl
  set p := newEmptyAt (uniquifyName (s.objs.map (fun o => o.name)) "CardParent")
      (cardCenterOf s) with hp
  set o2 := reparentObj (worldOf p) g1 with ho2
  have h1 : (clearCardAnim keep (is_card s) s.objs)[i]? = some g1 :=
    clearCardAnim_getElem keep (is_card s) s.objs i o ho
  have hglt : i < (clearCardAnim keep (is_card s) s.objs).length :=
    (List.getElem?_eq_some.mp h1).1
  have h2 : (clearCardAnim keep (is_card s) s.objs ++ [p])[i]? = some g1 := by
    rw [List.getElem?_append, if_pos hglt]
    exact h1
  have h3 : (reparentCards (is_card s) (worldOf p)
      (clearCardAnim keep (is_card s) s.objs ++ [p]))[i]? = some o2 := by
    rw [reparentCards_getElem (is_card s) (worldOf p) _ i g1 h2, hgcard]
    rw [ho2]
    rfl
  have hworld : worldOf o2 = worldOf o := by
    have hpw : worldOf p = Affine.translation (cardCenterOf s) := by
      rw [hp]; rfl
    have hrep : worldOf o2
        = (worldOf p).comp ((Affine.inverted (worldOf p)).comp g1.matrix_basis) := by
      rw [ho2, reparentObj, worldOf]
    rw [hrep, hpw, hgbasis, translation_comp_inverted (cardCenterOf s) o.matrix_basis,
      worldOf, hnp]
  refine ⟨o2, ?_, hworld⟩
  rw [analyze_and_setup_scene, if_neg hnonempty]
  simp only []
  apply placeFocus_getElem _ _ i o2 h3
  have : o2.name = o.name := by
    rw [ho2, reparentObj]
    exact hgname
  rw [this]
  exact hnf

/-- Witness for the amended C4: the unparented card mesh of `sceneC10b`
keeps its world transform. -/
theorem C4_amended_witness :
    ∃ o2, (analyze_and_setup_scene false sceneC10b).1.objs[0]? = some o2 ∧
      worldOf o2 = worldOf (meshObj "Card") :=
  C4_amended false sceneC10b 0 (meshObj "Card")
    (by decide) (by decide) (by decide) (by decide)

/-! ## Pivot creation (C6) -/

/-- The uniquified pivot name is never the focus-point name: it is either
the reserved identifier itself or carries a dot suffix, making it longer
than "FocusPoint". -/
theorem uniquifyName_ne_focus (taken : List String) :
    uniquifyName taken "CardParent" ≠ "FocusPoint" := by
  rw [uniquifyName]
  split
  · split
    · intro h
      have hlen := congrArg String.length h
      rw [String.length_append, String.length_append] at hlen
      have e1 : "CardParent".length = 10 := rfl
      have e2 : ".".length = 1 := rfl
      have e3 : "FocusPoint".length = 10 := rfl
      rw [e1, e2, e3] at hlen
      omega
    · intro h
      have hlen := congrArg String.length h
      rw [String.length_append] at hlen
      have e1 : "CardParent".length = 10 := rfl
      have e2 : ".overflow".length = 9 := rfl
      have e3 : "FocusPoint".length = 10 := rfl
      rw [e1, e2, e3] at hlen
      omega
  · decide

/-- C6 counterexample: on a scene that already contains a node named
CardParent, `analyze_and_setup_scene` does not reuse it: a second pivot
empty is appended and (by Blender name uniquification) ends up named
"CardParent.001", so the scene gains two nodes (pivot and FocusPoint)
instead of the one that reuse would produce. -/
theorem C6_claim_counterexample :
    (analyze_and_setup_scene false sceneC6).1.objs.map (fun o => o.name)
      = ["CardParent", "Card", "CardParent.001", "FocusPoint"] ∧
    (analyze_and_setup_scene false sceneC6).1.objs.length
      = sceneC6.objs.length + 2 := by
  constructor
  · with_unfolding_all rfl
  · with_unfolding_all rfl

/-- C6 (amended): on every invocation with a non-empty mesh set, the pivot
stage always creates a new empty node, appended after the existing
objects, located at the subject bounds center and named by uniquifying the
reserved identifier (hence suffixed, not reused, when a node with that
identifier already exists). -/
theorem C6_amended (keep : Bool) (s : Scene)
    (hne : ¬(get_all_mesh_objects s).isEmpty = true) :
    (analyze_and_setup_scene keep s).1.objs[s.objs.length]?
      = some (newEmptyAt (uniquifyName (s.objs.map (fun o => o.name)) "CardParent")
          (cardCenterOf s)) := by
  set p := newEmptyAt (uniquifyName (s.objs.map (fun o => o.name)) "CardParent")
      (cardCenterOf s) with hp
  have hlen1 : (clearCardAnim keep (is_card s) s.objs).length = s.objs.length :=
    clearCardAnim_length keep (is_card s) s.objs
  have h2 : (clearCardAnim keep (is_card s) s.objs ++ [p])[s.objs.length]? = some p := by
    rw [← hlen1]
    exact List.getElem?_concat_length _ _
  have hpcard : is_card s p = false := by
    rw [hp]
    rfl
  have h3 : (reparentCards (is_card s) (worldOf p)
      (clearCardAnim keep (is_card s) s.objs ++ [p]))[s.objs.length]? = some p := by
    rw [reparentCards_getElem (is_card s) (worldOf p) _ _ p h2, hpcard]
    rfl
  rw [analyze_and_setup_scene, if_neg hne]
  simp only []
  apply placeFocus_getElem _ _ _ p h3
  rw [hp]
  exact uniquifyName_ne_focus _

/-- Witness for the amended C6 on the scene that already holds a
CardParent node: the fresh pivot is appended at index 2. -/
theorem C6_amended_witness :
    (analyze_and_setup_scene false sceneC6).1.objs[sceneC6.objs.length]?
      = some (newEmptyAt (uniquifyName (sceneC6.objs.map (fun o => o.name)) "CardParent")
          (cardCenterOf sceneC6)) :=
  C6_amended false sceneC6 (by decide)

end Render
